import Mathlib

/-!
Shallow embedding of the fast-orm core, translated from the TypeScript source:
the query-compilation engine (`QueryBuilder.buildWhereClause` / `QueryBuilder.buildSql`),
the model CRUD layer (`Model.create`), the pooled/transactional connection
(`Connection.query` / `Connection.releaseConnection`), and the migration runner
(`MigrationRunner.migrateUp` / `MigrationRunner.migrateDown`).

JavaScript runtime values bound as SQL parameters are modelled by `Value`.
Mutable `this` state is modelled by explicit state passing: every builder method
takes and returns a `QueryBuilder` record, exactly mirroring the fields the
TypeScript class mutates.
-/

/-- A JavaScript value as it flows through the builder: numbers, strings,
booleans, `null`, `undefined`, and arrays (used by `whereIn` / `whereBetween`). -/
inductive Value where
  | int (n : Int)
  | str (s : String)
  | bool (b : Bool)
  | null
  | undefined
  | list (vs : List Value)

/-- The `boolean` field of a where clause: `'AND' | 'OR'`. -/
inductive BoolOp where
  | and
  | or

/-- Rendering of the `boolean` field, as interpolated by `buildWhereClause`. -/
def BoolOp.render : BoolOp → String
  | .and => "AND"
  | .or => "OR"

/-- The `WhereClause | WhereGroup` tagged union of the source
(`type: 'basic' | 'group' | 'raw'`).  The source stores the fields of all
variants optionally on one object type; only the fields actually read for each
`type` tag are kept here. -/
inductive WhereNode where
  | basic (boolOp : BoolOp) (column : String) (operator : String) (value : Value)
  | group (boolOp : BoolOp) (clauses : List WhereNode)
  | raw (boolOp : BoolOp) (sql : String) (params : List Value)

/-- The `clause.boolean` field, present on every variant. -/
def WhereNode.boolOp : WhereNode → BoolOp
  | .basic b _ _ _ => b
  | .group b _ => b
  | .raw b _ _ => b

/-- Replace the `boolean` field of a node, leaving the payload unchanged.
Used to state that the first sibling's `boolean` is ignored by rendering. -/
def WhereNode.withBoolOp : WhereNode → BoolOp → WhereNode
  | .basic _ c o v, b => .basic b c o v
  | .group _ cs, b => .group b cs
  | .raw _ s ps, b => .raw b s ps

/-- View a value as a JavaScript array, as `clause.value.map(...)` does in the
`IN` / `NOT IN` branch.  The source would throw on a non-array value here; that
case is unreachable through the public builder API (`whereIn` and friends always
store arrays), and is modelled as the empty array. -/
def asList : Value → List Value
  | .list vs => vs
  | _ => []

/-- JavaScript indexing `value[i]`: element of an array, `undefined` otherwise,
as used by the `BETWEEN` branch (`clause.value[0]`, `clause.value[1]`). -/
def jsIndex (v : Value) (i : Nat) : Value :=
  match v with
  | .list vs => vs.getD i .undefined
  | _ => .undefined

/-- The `operatorPart` computation of `buildWhereClause` for a `basic` clause,
together with the parameters pushed for that clause, translated branch by
branch from the source:
`IN`/`NOT IN` emit one placeholder per array element and push the elements;
`BETWEEN`/`NOT BETWEEN` emit `? AND ?` and push `value[0]`, `value[1]`;
`IS NULL`/`IS NOT NULL` emit nothing and push nothing
(`params.push()` with no argument is a no-op);
every other operator keeps `operatorPart = clause.operator` unchanged —
note that the source appends no `?` in this default branch — and pushes
`clause.value`. -/
def basicOperatorPart (operator : String) (value : Value) : String × List Value :=
  if operator = "IN" ∨ operator = "NOT IN" then
    let vs := asList value
    (operator ++ " (" ++ String.intercalate ", " (vs.map (fun _ => "?")) ++ ")", vs)
  else if operator = "BETWEEN" ∨ operator = "NOT BETWEEN" then
    (operator ++ " ? AND ?", [jsIndex value 0, jsIndex value 1])
  else if operator = "IS NULL" ∨ operator = "IS NOT NULL" then
    (operator, [])
  else
    (operator, [value])

mutual

/-- The rendering of one clause, without its leading boolean keyword:
`basic` renders `<column> <operatorPart>`, `group` renders the recursively
compiled children in parentheses, `raw` renders the caller-supplied SQL in
parentheses with its parameters. -/
def renderNode : WhereNode → String × List Value
  | .basic _ column operator value =>
      let r := basicOperatorPart operator value
      (column ++ " " ++ r.1, r.2)
  | .group _ clauses =>
      let r := buildWhereClause clauses
      ("(" ++ r.1 ++ ")", r.2)
  | .raw _ sql params => ("(" ++ sql ++ ")", params)

/-- The `clauses.forEach((clause, index) => ...)` loop: the flag tracks
`index === 0`; a non-first clause is prefixed by `clause.boolean + ' '`.
Returns the `parts` array and the accumulated `params`. -/
def renderList : Bool → List WhereNode → List String × List Value
  | _, [] => ([], [])
  | isFirst, c :: cs =>
      let pre := if isFirst then "" else c.boolOp.render ++ " "
      let r := renderNode c
      let rest := renderList false cs
      ((pre ++ r.1) :: rest.1, r.2 ++ rest.2)

/-- `QueryBuilder.buildWhereClause`: renders a sibling sequence of clauses and
joins the parts with a single space (`parts.join(' ')`). -/
def buildWhereClause (clauses : List WhereNode) : String × List Value :=
  let r := renderList true clauses
  (String.intercalate " " r.1, r.2)

end

/-- Join kinds: `'INNER' | 'LEFT' | 'RIGHT'`. -/
inductive JoinType where
  | inner
  | left
  | right

/-- Rendering of the join kind as interpolated into `<TYPE> JOIN`. -/
def JoinType.render : JoinType → String
  | .inner => "INNER"
  | .left => "LEFT"
  | .right => "RIGHT"

/-- One entry of `joinClauses`; the source names the condition field `on`. -/
structure JoinClause where
  type : JoinType
  table : String
  onSql : String
  params : List Value

/-- Sort direction of an `ORDER BY` pair: `'ASC' | 'DESC'`. -/
inductive Direction where
  | asc
  | desc

/-- Rendering of a sort direction. -/
def Direction.render : Direction → String
  | .asc => "ASC"
  | .desc => "DESC"

/-- One entry of `havingConditions`.  The source reuses the `WhereClause` object
type with `type: 'basic'` here; `buildSql` reads only `column`, `operator` and
`value` from it (the `boolean` field is stored but never read). -/
structure HavingCond where
  boolOp : BoolOp
  column : String
  operator : String
  value : Value

/-- The mutable plan state of the `QueryBuilder` class, one field per class
field of the source (the `connection` handle carries no compilation state and
is omitted).  Defaults are the field initialisers of the class. -/
structure QueryBuilder where
  tableName : String
  selectColumns : List String := ["*"]
  whereClauses : List WhereNode := []
  limitValue : Option Int := none
  offsetValue : Option Int := none
  orderByConditions : List (String × Direction) := []
  groupByColumns : List String := []
  havingConditions : List HavingCond := []
  joinClauses : List JoinClause := []
  currentWhereGroup : Option (List WhereNode) := none

/-- The class constructor: `new QueryBuilder(tableName, connection)`. -/
def QueryBuilder.new (tableName : String) : QueryBuilder :=
  { tableName := tableName }

/-- The fresh nested builder created by the callback overloads of
`where` / `orWhere` and by callback joins: same table, with
`currentWhereGroup` initialised to an empty array. -/
def QueryBuilder.freshNested (tableName : String) : QueryBuilder :=
  { tableName := tableName, currentWhereGroup := some [] }

/-- `select(...columns)`: replaces the select list; an empty argument list
resets to `['*']`. -/
def QueryBuilder.select (b : QueryBuilder) (columns : List String) : QueryBuilder :=
  { b with selectColumns := if 0 < columns.length then columns else ["*"] }

/-- `addWhere(clause)`: pushes into `currentWhereGroup` when collecting a
nested group, otherwise into the top-level `whereClauses`. -/
def QueryBuilder.addWhere (b : QueryBuilder) (clause : WhereNode) : QueryBuilder :=
  match b.currentWhereGroup with
  | some g => { b with currentWhereGroup := some (g ++ [clause]) }
  | none => { b with whereClauses := b.whereClauses ++ [clause] }

/-- The `(column, operator, value)` overload of `where`: appends a `basic`
clause with boolean `AND`. -/
def QueryBuilder.whereBasic (b : QueryBuilder) (column operator : String) (value : Value) :
    QueryBuilder :=
  b.addWhere (.basic .and column operator value)

/-- The `(column, operator, value)` overload of `orWhere`: appends a `basic`
clause with boolean `OR`. -/
def QueryBuilder.orWhereBasic (b : QueryBuilder) (column operator : String) (value : Value) :
    QueryBuilder :=
  b.addWhere (.basic .or column operator value)

/-- The callback overload of `where`: runs the callback on a fresh nested
builder and, only when the collected sequence is non-empty, appends it as a
`group` clause with boolean `AND`.  The source reads
`nestedBuilder.currentWhereGroup!` (non-null assertion): the callback receives
a builder whose `currentWhereGroup` is an array, and no public builder method
clears it, so the `none` case is unreachable and modelled as a no-op. -/
def QueryBuilder.whereCallback (b : QueryBuilder) (cb : QueryBuilder → QueryBuilder) :
    QueryBuilder :=
  let nested := cb (QueryBuilder.freshNested b.tableName)
  match nested.currentWhereGroup with
  | some cs => if 0 < cs.length then b.addWhere (.group .and cs) else b
  | none => b

/-- The callback overload of `orWhere`: identical to `whereCallback` but the
group's boolean is `OR`. -/
def QueryBuilder.orWhereCallback (b : QueryBuilder) (cb : QueryBuilder → QueryBuilder) :
    QueryBuilder :=
  let nested := cb (QueryBuilder.freshNested b.tableName)
  match nested.currentWhereGroup with
  | some cs => if 0 < cs.length then b.addWhere (.group .or cs) else b
  | none => b

/-- `whereIn(column, values)`. -/
def QueryBuilder.whereIn (b : QueryBuilder) (column : String) (values : List Value) :
    QueryBuilder :=
  b.addWhere (.basic .and column "IN" (.list values))

/-- `orWhereIn(column, values)`. -/
def QueryBuilder.orWhereIn (b : QueryBuilder) (column : String) (values : List Value) :
    QueryBuilder :=
  b.addWhere (.basic .or column "IN" (.list values))

/-- `whereNotIn(column, values)`. -/
def QueryBuilder.whereNotIn (b : QueryBuilder) (column : String) (values : List Value) :
    QueryBuilder :=
  b.addWhere (.basic .and column "NOT IN" (.list values))

/-- `orWhereNotIn(column, values)`. -/
def QueryBuilder.orWhereNotIn (b : QueryBuilder) (column : String) (values : List Value) :
    QueryBuilder :=
  b.addWhere (.basic .or column "NOT IN" (.list values))

/-- `whereNull(column)`. -/
def QueryBuilder.whereNull (b : QueryBuilder) (column : String) : QueryBuilder :=
  b.addWhere (.basic .and column "IS NULL" .null)

/-- `orWhereNull(column)`. -/
def QueryBuilder.orWhereNull (b : QueryBuilder) (column : String) : QueryBuilder :=
  b.addWhere (.basic .or column "IS NULL" .null)

/-- `whereNotNull(column)`. -/
def QueryBuilder.whereNotNull (b : QueryBuilder) (column : String) : QueryBuilder :=
  b.addWhere (.basic .and column "IS NOT NULL" .null)

/-- `orWhereNotNull(column)`. -/
def QueryBuilder.orWhereNotNull (b : QueryBuilder) (column : String) : QueryBuilder :=
  b.addWhere (.basic .or column "IS NOT NULL" .null)

/-- `whereBetween(column, min, max)`: stores the pair as a two-element array. -/
def QueryBuilder.whereBetween (b : QueryBuilder) (column : String) (lo hi : Value) :
    QueryBuilder :=
  b.addWhere (.basic .and column "BETWEEN" (.list [lo, hi]))

/-- `orWhereBetween(column, min, max)`. -/
def QueryBuilder.orWhereBetween (b : QueryBuilder) (column : String) (lo hi : Value) :
    QueryBuilder :=
  b.addWhere (.basic .or column "BETWEEN" (.list [lo, hi]))

/-- `whereNotBetween(column, min, max)`. -/
def QueryBuilder.whereNotBetween (b : QueryBuilder) (column : String) (lo hi : Value) :
    QueryBuilder :=
  b.addWhere (.basic .and column "NOT BETWEEN" (.list [lo, hi]))

/-- `orWhereNotBetween(column, min, max)`. -/
def QueryBuilder.orWhereNotBetween (b : QueryBuilder) (column : String) (lo hi : Value) :
    QueryBuilder :=
  b.addWhere (.basic .or column "NOT BETWEEN" (.list [lo, hi]))

/-- `whereRaw(sql, params)`. -/
def QueryBuilder.whereRaw (b : QueryBuilder) (sql : String) (params : List Value) :
    QueryBuilder :=
  b.addWhere (.raw .and sql params)

/-- `orWhereRaw(sql, params)`. -/
def QueryBuilder.orWhereRaw (b : QueryBuilder) (sql : String) (params : List Value) :
    QueryBuilder :=
  b.addWhere (.raw .or sql params)

/-- The string branch of `addJoin`: the ON condition SQL and parameters are
taken verbatim. -/
def QueryBuilder.addJoinOn (b : QueryBuilder) (type : JoinType) (table : String)
    (onCondition : String) (onParams : List Value) : QueryBuilder :=
  { b with joinClauses := b.joinClauses ++
      [{ type := type, table := table, onSql := onCondition, params := onParams }] }

/-- The callback branch of `addJoin`: the callback populates a fresh builder
scoped to the joined table, whose collected sequence is compiled by
`buildWhereClause` into the ON condition.  As in `whereCallback`, the source's
`joinBuilder.currentWhereGroup!` non-null assertion is modelled by defaulting
the unreachable `none` case to the empty sequence. -/
def QueryBuilder.addJoinCallback (b : QueryBuilder) (type : JoinType) (table : String)
    (cb : QueryBuilder → QueryBuilder) : QueryBuilder :=
  let joinBuilder := cb (QueryBuilder.freshNested table)
  let r := buildWhereClause (joinBuilder.currentWhereGroup.getD [])
  { b with joinClauses := b.joinClauses ++
      [{ type := type, table := table, onSql := r.1, params := r.2 }] }

/-- The string form of `innerJoin(table, firstColumn, operator, secondColumn)`;
the source throws when `operator` or `secondColumn` is missing, so the
translated form requires all three. -/
def QueryBuilder.innerJoin (b : QueryBuilder) (table firstColumn operator secondColumn :
    String) : QueryBuilder :=
  b.addJoinOn .inner table (firstColumn ++ " " ++ operator ++ " " ++ secondColumn) []

/-- The string form of `leftJoin`. -/
def QueryBuilder.leftJoin (b : QueryBuilder) (table firstColumn operator secondColumn :
    String) : QueryBuilder :=
  b.addJoinOn .left table (firstColumn ++ " " ++ operator ++ " " ++ secondColumn) []

/-- The string form of `rightJoin`. -/
def QueryBuilder.rightJoin (b : QueryBuilder) (table firstColumn operator secondColumn :
    String) : QueryBuilder :=
  b.addJoinOn .right table (firstColumn ++ " " ++ operator ++ " " ++ secondColumn) []

/-- `limit(count)`. -/
def QueryBuilder.limit (b : QueryBuilder) (count : Int) : QueryBuilder :=
  { b with limitValue := some count }

/-- `offset(count)`. -/
def QueryBuilder.offset (b : QueryBuilder) (count : Int) : QueryBuilder :=
  { b with offsetValue := some count }

/-- `orderBy(column, direction)`: appends; repeated calls accumulate. -/
def QueryBuilder.orderBy (b : QueryBuilder) (column : String) (direction : Direction) :
    QueryBuilder :=
  { b with orderByConditions := b.orderByConditions ++ [(column, direction)] }

/-- `groupBy(...columns)`: replaces. -/
def QueryBuilder.groupBy (b : QueryBuilder) (columns : List String) : QueryBuilder :=
  { b with groupByColumns := columns }

/-- `having(column, operator, value)`: appends a basic condition. -/
def QueryBuilder.having (b : QueryBuilder) (column operator : String) (value : Value) :
    QueryBuilder :=
  { b with havingConditions := b.havingConditions ++
      [{ boolOp := .and, column := column, operator := operator, value := value }] }

/-- `buildSql()`, translated statement by statement: `SELECT <cols> FROM
<table>`, then each join with its parameters, then `WHERE` when the clause
sequence is non-empty, then `GROUP BY`, then `HAVING` (flat, `AND`-joined, one
placeholder and one parameter per condition), then `ORDER BY`, then `LIMIT ?`
and `OFFSET ?` each contributing one trailing parameter when set. -/
def QueryBuilder.buildSql (b : QueryBuilder) : String × List Value :=
  let base := ("SELECT " ++ String.intercalate ", " b.selectColumns ++ " FROM " ++
    b.tableName, ([] : List Value))
  let afterJoins := b.joinClauses.foldl
    (fun acc j =>
      (acc.1 ++ " " ++ j.type.render ++ " JOIN " ++ j.table ++ " ON " ++ j.onSql,
        acc.2 ++ j.params))
    base
  let afterWhere :=
    if 0 < b.whereClauses.length then
      let w := buildWhereClause b.whereClauses
      (afterJoins.1 ++ " WHERE " ++ w.1, afterJoins.2 ++ w.2)
    else afterJoins
  let afterGroup :=
    if 0 < b.groupByColumns.length then
      (afterWhere.1 ++ " GROUP BY " ++ String.intercalate ", " b.groupByColumns,
        afterWhere.2)
    else afterWhere
  let afterHaving :=
    if 0 < b.havingConditions.length then
      (afterGroup.1 ++ " HAVING " ++ String.intercalate " AND "
          (b.havingConditions.map (fun h => h.column ++ " " ++ h.operator ++ " ?")),
        afterGroup.2 ++ b.havingConditions.map (fun h => h.value))
    else afterGroup
  let afterOrder :=
    if 0 < b.orderByConditions.length then
      (afterHaving.1 ++ " ORDER BY " ++ String.intercalate ", "
          (b.orderByConditions.map (fun o => o.1 ++ " " ++ o.2.render)),
        afterHaving.2)
    else afterHaving
  let afterLimit :=
    match b.limitValue with
    | some n => (afterOrder.1 ++ " LIMIT ?", afterOrder.2 ++ [Value.int n])
    | none => afterOrder
  match b.offsetValue with
  | some n => (afterLimit.1 ++ " OFFSET ?", afterLimit.2 ++ [Value.int n])
  | none => afterLimit

/-- The stateful reading of `buildSql()`: the source method only reads plan
fields (it contains no assignment to any `this.` field), so its translation as
a state transformer returns the plan unchanged alongside the compiled pair. -/
def QueryBuilder.buildSqlSt (b : QueryBuilder) : (String × List Value) × QueryBuilder :=
  (b.buildSql, b)

/-- Number of `?` placeholder characters in a compiled SQL string. -/
def countPlaceholders (s : String) : Nat :=
  (s.toList.filter (fun c => c = '?')).length

/-- A JavaScript data object as used by the model layer: an insertion-ordered
list of field name / value pairs, mirroring `Object.keys` / `Object.values`
enumeration order. -/
abbrev Record := List (String × Value)

/-- `Object.keys(data)`. -/
def objKeys (r : Record) : List String := r.map (fun p => p.1)

/-- `Object.values(data)`. -/
def objValues (r : Record) : List Value := r.map (fun p => p.2)

/-- JavaScript property assignment `obj[k] = v`: overwrites an existing key in
place, otherwise appends the key at the end of the enumeration order. -/
def setField : Record → String → Value → Record
  | [], k, v => [(k, v)]
  | (k0, v0) :: rest, k, v =>
      if k0 = k then (k0, v) :: rest else (k0, v0) :: setField rest k v

/-- `runHooks(type, instance)`: the registered hooks of one event, invoked
sequentially in registration order, each receiving (and here returning) the
instance it may mutate. -/
def runHooks (hooks : List (Record → Record)) (r : Record) : Record :=
  hooks.foldl (fun acc h => h acc) r

/-- The observable outcome of `Model.create`: the INSERT statement it issues,
the positional parameters it binds, and the record it returns to the caller. -/
structure CreateResult where
  insertSql : String
  insertParams : List Value
  returned : Record

/-- `Model.create(data)`, translated statement by statement:
`newInstance = { ...data }` (a shallow copy, so hook mutations do not reach
`data`); `beforeCreate` hooks run over the copy; the column list, placeholder
list and value list are computed from `Object.keys(data)` / `Object.values(data)`
— the original argument, not the hooked copy; the generated `insertId` is then
assigned onto the instance and `afterCreate` hooks run before it is returned. -/
def Model.create (tableName : String) (beforeHooks afterHooks : List (Record → Record))
    (data : Record) (insertId : Int) : CreateResult :=
  let draft := runHooks beforeHooks data
  let columns := String.intercalate ", " (objKeys data)
  let placeholders := String.intercalate ", " ((objKeys data).map (fun _ => "?"))
  let values := objValues data
  let sql := "INSERT INTO " ++ tableName ++ " (" ++ columns ++ ") VALUES (" ++
    placeholders ++ ")"
  let withId := setField draft "id" (Value.int insertId)
  let finalized := runHooks afterHooks withId
  { insertSql := sql, insertParams := values, returned := finalized }

/-- Pool events observable from `Connection.query`: a checkout from the pool
(`pool.getConnection()`) and a release back to it (`connection.release()`). -/
inductive ConnEvent where
  | checkout
  | release
  deriving DecidableEq

/-- `Connection.releaseConnection(connection)`: releases only when the instance
is not transaction-bound and the handle argument is defined
(`if (!this._isTransactionConnection && connection)`). -/
def Connection.releaseConnection (isTx : Bool) (conn : Option Unit) : List ConnEvent :=
  if !isTx ∧ conn.isSome then [ConnEvent.release] else []

/-- The control-flow trace of one `Connection.query` call. -/
structure QueryTrace where
  success : Bool
  events : List ConnEvent

/-- `Connection.query(sql, params)`, with its `try`/`finally` translated into
explicit paths.  `getActiveConnection` returns the wrapped transactional handle
when transaction-bound (no pool event), otherwise checks a connection out of
the pool (which may itself fail), otherwise throws.  `execute` may fail.  The
`finally` block runs `releaseConnection(connection)` only when the instance is
not transaction-bound; when the checkout itself threw, the local `connection`
is still undefined there and `releaseConnection` does nothing. -/
def Connection.queryRun (isTx hasPool checkoutOk execOk : Bool) : QueryTrace :=
  if isTx then
    { success := execOk, events := [] }
  else if hasPool then
    if checkoutOk then
      { success := execOk,
        events := [ConnEvent.checkout] ++ Connection.releaseConnection false (some ()) }
    else
      { success := false, events := Connection.releaseConnection false none }
  else
    { success := false, events := Connection.releaseConnection false none }

/-- A loaded migration definition: a sortable name and the `up` / `down`
procedures, which act on an abstract database state `δ` and may fail
(`none`). -/
structure Migration (δ : Type) where
  name : String
  up : δ → Option δ
  down : δ → Option δ

/-- Lexicographic comparison of character sequences, the ascending order a
binary-collation `ORDER BY` imposes on names. -/
def charListLe : List Char → List Char → Bool
  | [], _ => true
  | _ :: _, [] => false
  | c :: cs, d :: ds => if c < d then true else if d < c then false else charListLe cs ds

/-- Ascending name comparison. -/
def nameLe (a b : String) : Bool := charListLe a.toList b.toList

/-- Insert a name into an ascending-sorted list of names. -/
def insertSorted (x : String) : List String → List String
  | [] => [x]
  | y :: ys => if nameLe x y then x :: y :: ys else y :: insertSorted x ys

/-- The `ORDER BY name ASC` of `getRanMigrations`: the ledger rows sorted
ascending by name (the sorting itself is performed by the database; any
correct ascending sort models it). -/
def sortNames (l : List String) : List String := l.foldr insertSorted []

/-- The `availableMigrationsMap` lookup of `migrateDown`: `new Map(entries)`
keeps the last entry for a duplicated key, so the lookup scans from the end. -/
def lookupMigration {δ : Type} (avail : List (Migration δ)) (name : String) :
    Option (Migration δ) :=
  avail.reverse.find? (fun m => m.name == name)

/-- The outcome of a `migrateUp` run: the names whose `up` procedure was
invoked (in invocation order), the final ledger rows, the final database
state, and the name of the migration whose `up` failed, if any. -/
structure UpRunResult (δ : Type) where
  executed : List String
  ledger : List String
  db : δ
  err : Option String

/-- The `for (const migration of availableMigrations)` loop of `migrateUp`:
`ran` is the snapshot of applied names read before the loop; a migration whose
name is in the snapshot is skipped; otherwise its `up` runs, and on success its
ledger row is inserted and the loop continues, while on failure the loop aborts
with the remaining migrations unattempted. -/
def migrateUpGo {δ : Type} (ran : List String) :
    List (Migration δ) → List String → δ → List String → UpRunResult δ
  | [], ledger, db, executed =>
      { executed := executed, ledger := ledger, db := db, err := none }
  | m :: rest, ledger, db, executed =>
      if ran.contains m.name then migrateUpGo ran rest ledger db executed
      else
        match m.up db with
        | some db2 =>
            migrateUpGo ran rest (ledger ++ [m.name]) db2 (executed ++ [m.name])
        | none =>
            { executed := executed ++ [m.name], ledger := ledger, db := db,
              err := some m.name }

/-- `migrateUp()`: reads the applied snapshot from the ledger (sorted ascending
by the database) and runs the loop over the available migrations. -/
def migrateUp {δ : Type} (avail : List (Migration δ)) (ledger : List String) (db : δ) :
    UpRunResult δ :=
  migrateUpGo (sortNames ledger) avail ledger db []

/-- The outcome of a `migrateDown` run: the names whose `down` procedure was
invoked (in invocation order), the names skipped with a warning because no
definition was found, the final ledger rows, the final database state, and the
name of the migration whose `down` failed, if any. -/
structure DownRunResult (δ : Type) where
  rolledBack : List String
  skipped : List String
  ledger : List String
  db : δ
  err : Option String

/-- The `for (const migrationName of migrationsToRollback)` loop of
`migrateDown`: a selected name with a matching definition has its `down` run
and, on success, its ledger row deleted (`DELETE ... WHERE name = ?`); on
failure the loop aborts.  A selected name with no matching definition is
skipped with a warning and its ledger row is left untouched. -/
def migrateDownGo {δ : Type} (avail : List (Migration δ)) :
    List String → List String → δ → List String → List String → DownRunResult δ
  | [], ledger, db, rolledBack, skipped =>
      { rolledBack := rolledBack, skipped := skipped, ledger := ledger, db := db,
        err := none }
  | n :: rest, ledger, db, rolledBack, skipped =>
      match lookupMigration avail n with
      | some m =>
          match m.down db with
          | some db2 =>
              migrateDownGo avail rest (ledger.filter (fun x => x != n)) db2
                (rolledBack ++ [n]) skipped
          | none =>
              { rolledBack := rolledBack ++ [n], skipped := skipped, ledger := ledger,
                db := db, err := some n }
      | none => migrateDownGo avail rest ledger db rolledBack (skipped ++ [n])

/-- `migrateDown(steps)`: returns immediately when nothing is applied;
otherwise selects `ranMigrations.slice().reverse().slice(0, steps)` — the
applied names sorted ascending, reversed, first `steps` taken — and runs the
rollback loop over that selection. -/
def migrateDown {δ : Type} (steps : Nat) (avail : List (Migration δ)) (ledger : List String)
    (db : δ) : DownRunResult δ :=
  let ran := sortNames ledger
  if ran.isEmpty then
    { rolledBack := [], skipped := [], ledger := ledger, db := db, err := none }
  else
    migrateDownGo avail (ran.reverse.take steps) ledger db [] []

/-- The two-element case of joining parts with a single space. -/
theorem intercalate_pair (x y : String) : String.intercalate " " [x, y] = x ++ " " ++ y := rfl

/-- Changing the `boolean` field of a clause does not change its rendering
without prefix. -/
theorem renderNode_withBoolOp (c : WhereNode) (b : BoolOp) :
    renderNode (c.withBoolOp b) = renderNode c := by
  cases c <;> simp [WhereNode.withBoolOp, renderNode]

/-- The SQL parts of a non-first tail: each clause rendered behind its own
boolean keyword and a space. -/
theorem renderList_false_sql (cs : List WhereNode) :
    (renderList false cs).1 =
      cs.map (fun n => n.boolOp.render ++ " " ++ (renderNode n).1) := by
  induction cs with
  | nil => simp [renderList]
  | cons c cs ih => simp [renderList, ih]

/-- C1: the claim that the compiled SQL always contains exactly as many `?`
placeholders as the parameters produced fails on the code.  The default
`basic`-operator branch of `buildWhereClause` (taken for ordinary operators
such as `>` or `=`) keeps `operatorPart` equal to the bare operator — no `?`
is appended — while still pushing `clause.value` onto the parameter list.
Evaluated at the single predicate `where("age", ">", 18)`: the compiled
fragment is `age >`, holding zero placeholders against one parameter. -/
theorem c1_basic_operator_drops_placeholder :
    (buildWhereClause [WhereNode.basic .and "age" ">" (Value.int 18)]).1 = "age >" ∧
    countPlaceholders
      (buildWhereClause [WhereNode.basic .and "age" ">" (Value.int 18)]).1 = 0 ∧
    (buildWhereClause [WhereNode.basic .and "age" ">" (Value.int 18)]).2 =
      [Value.int 18] := by
  have h1 : (buildWhereClause [WhereNode.basic .and "age" ">" (Value.int 18)]).1 =
      "age >" := by
    simp [buildWhereClause, renderList, renderNode, basicOperatorPart] <;> rfl
  refine ⟨h1, ?_, ?_⟩
  · rw [h1]
    decide
  · simp [buildWhereClause, renderList, renderNode, basicOperatorPart] <;> rfl

/-- C2: the spec example `.where("age",">",18).orWhere("vip","=",true)
.whereIn("status",["active","pending"])` on table `users`.  The parameter list
matches the claim, but the compiled SQL is
`SELECT * FROM users WHERE age > OR vip = AND status IN (?, ?)` — the `?`
after `age >` and after `vip =` claimed by the spec is missing, because the
default `basic`-operator branch appends no placeholder. -/
theorem c2_example_sql_lacks_basic_placeholders :
    ((((QueryBuilder.new "users").whereBasic "age" ">" (Value.int 18)).orWhereBasic
        "vip" "=" (Value.bool true)).whereIn "status"
        [Value.str "active", Value.str "pending"]).buildSql =
      ("SELECT * FROM users WHERE age > OR vip = AND status IN (?, ?)",
        [Value.int 18, Value.bool true, Value.str "active", Value.str "pending"]) := by
  simp [QueryBuilder.new, QueryBuilder.whereBasic, QueryBuilder.orWhereBasic,
    QueryBuilder.whereIn, QueryBuilder.addWhere, QueryBuilder.buildSql,
    buildWhereClause, renderList, renderNode, basicOperatorPart, asList,
    WhereNode.boolOp, BoolOp.render] <;> rfl

/-- C3: for every non-empty sibling sequence, `buildWhereClause` renders the
first clause with no leading boolean keyword — replacing the first clause's
`boolean` field changes nothing — and renders every later clause prefixed by
its own boolean keyword and a space; in particular a `where(...)` /
`orWhere(...)` two-clause sequence renders as the first clause followed by
`" "` then `"OR "` then the second clause. -/
theorem c3_first_sibling_boolean_ignored :
    (∀ (c : WhereNode) (cs : List WhereNode),
      (buildWhereClause (c :: cs)).1 =
        String.intercalate " "
          ((renderNode c).1 ::
            cs.map (fun n => n.boolOp.render ++ " " ++ (renderNode n).1))) ∧
    (∀ (c : WhereNode) (b : BoolOp) (cs : List WhereNode),
      buildWhereClause (c.withBoolOp b :: cs) = buildWhereClause (c :: cs)) ∧
    (∀ (c1 op1 c2 op2 : String) (v1 v2 : Value),
      (buildWhereClause
          [WhereNode.basic .and c1 op1 v1, WhereNode.basic .or c2 op2 v2]).1 =
        (renderNode (WhereNode.basic .and c1 op1 v1)).1 ++ " " ++
          ("OR " ++ (renderNode (WhereNode.basic .or c2 op2 v2)).1)) := by
  refine ⟨?_, ?_, ?_⟩
  · intro c cs
    simp [buildWhereClause, renderList, renderList_false_sql]
  · intro c b cs
    simp [buildWhereClause, renderList, renderNode_withBoolOp]
  · intro c1 op1 c2 op2 v1 v2
    simp [buildWhereClause, renderList, WhereNode.boolOp, BoolOp.render,
      intercalate_pair]

/-- C7: the callback overloads of `where` / `orWhere` leave the builder
unchanged whenever the callback adds no predicate to the nested builder (its
collected sequence stays empty), so the compiled SQL and parameter list are
those of the builder without the call; a group clause is appended exactly when
the collected sequence is non-empty, with boolean `AND` for `where` and `OR`
for `orWhere`. -/
theorem c7_empty_callback_is_noop :
    (∀ (b : QueryBuilder) (cb : QueryBuilder → QueryBuilder),
      (cb (QueryBuilder.freshNested b.tableName)).currentWhereGroup = some [] →
      b.whereCallback cb = b ∧ b.orWhereCallback cb = b ∧
      (b.whereCallback cb).buildSql = b.buildSql ∧
      (b.orWhereCallback cb).buildSql = b.buildSql) ∧
    (∀ (b : QueryBuilder) (cb : QueryBuilder → QueryBuilder) (cs : List WhereNode),
      (cb (QueryBuilder.freshNested b.tableName)).currentWhereGroup = some cs →
      cs ≠ [] →
      b.whereCallback cb = b.addWhere (.group .and cs) ∧
      b.orWhereCallback cb = b.addWhere (.group .or cs)) := by
  constructor
  · intro b cb h
    refine ⟨?_, ?_, ?_, ?_⟩ <;>
      simp [QueryBuilder.whereCallback, QueryBuilder.orWhereCallback, h]
  · intro b cb cs h hne
    have hlen : 0 < cs.length := List.length_pos.mpr hne
    constructor <;>
      simp [QueryBuilder.whereCallback, QueryBuilder.orWhereCallback, h, hlen]

/-- Witness for C7: on the `users` builder, the identity callback (which adds
nothing) leaves the builder unchanged, and a callback adding one basic
predicate appends exactly one `AND` group holding that predicate. -/
theorem c7_witness :
    ((QueryBuilder.new "users").whereCallback (fun q => q) = QueryBuilder.new "users") ∧
    ((QueryBuilder.new "users").whereCallback
        (fun q => q.whereBasic "a" "=" (Value.int 1)) =
      (QueryBuilder.new "users").addWhere
        (.group .and [WhereNode.basic .and "a" "=" (Value.int 1)])) :=
  ⟨(c7_empty_callback_is_noop.1 (QueryBuilder.new "users") (fun q => q) rfl).1,
    (c7_empty_callback_is_noop.2 (QueryBuilder.new "users")
      (fun q => q.whereBasic "a" "=" (Value.int 1))
      [WhereNode.basic .and "a" "=" (Value.int 1)] rfl
      (List.cons_ne_nil _ _)).1⟩

/-- C8: `buildSql` is a pure, idempotent reading of the plan: its stateful
translation returns every plan field unchanged, and a second call on the
returned builder produces the identical SQL string and parameter list. -/
theorem c8_buildSql_pure_idempotent :
    ∀ b : QueryBuilder,
      b.buildSqlSt.2 = b ∧
      (b.buildSqlSt.2).buildSqlSt = b.buildSqlSt ∧
      b.buildSqlSt.2.selectColumns = b.selectColumns ∧
      b.buildSqlSt.2.whereClauses = b.whereClauses ∧
      b.buildSqlSt.2.joinClauses = b.joinClauses ∧
      b.buildSqlSt.2.groupByColumns = b.groupByColumns ∧
      b.buildSqlSt.2.havingConditions = b.havingConditions ∧
      b.buildSqlSt.2.orderByConditions = b.orderByConditions ∧
      b.buildSqlSt.2.limitValue = b.limitValue ∧
      b.buildSqlSt.2.offsetValue = b.offsetValue :=
  fun _ => ⟨rfl, rfl, rfl, rfl, rfl, rfl, rfl, rfl, rfl, rfl⟩

/-- C9: in every execution path of `Connection.query` the number of pool
releases equals the number of pool checkouts; a transaction-bound call
produces no pool events at all (the wrapped handle is used directly); a
pool-backed call whose checkout succeeds performs exactly one checkout
followed by exactly one release, whether or not execution succeeds; and
`releaseConnection` on a transaction-bound instance is a no-op for every
handle argument. -/
theorem c9_checkout_release_balanced :
    (∀ isTx hasPool checkoutOk execOk : Bool,
      (Connection.queryRun isTx hasPool checkoutOk execOk).events.count
          ConnEvent.checkout =
        (Connection.queryRun isTx hasPool checkoutOk execOk).events.count
          ConnEvent.release) ∧
    (∀ hasPool checkoutOk execOk : Bool,
      (Connection.queryRun true hasPool checkoutOk execOk).events = []) ∧
    (∀ execOk : Bool,
      (Connection.queryRun false true true execOk).events =
        [ConnEvent.checkout, ConnEvent.release]) ∧
    (∀ conn : Option Unit, Connection.releaseConnection true conn = []) := by
  refine ⟨by decide, by decide, by decide, fun conn => by cases conn <;> rfl⟩

/-- C10: `Model.create` computes the INSERT column list and value list from
the original `data` argument, not from the hooked draft: for every data object
and hook list the bound parameters are `Object.values(data)` and the statement
text lists `Object.keys(data)`, while the returned record is the `beforeCreate`
hook image of the data with the generated id assigned (then `afterCreate`
hooks).  Instantiated with a hook that overwrites `name`: the inserted value is
still the pre-hook `"x"` while the returned record carries `"hooked"` and the
insert id. -/
theorem c10_insert_uses_prehook_data :
    (∀ (table : String) (bh ah : List (Record → Record)) (data : Record)
        (insertId : Int),
      (Model.create table bh ah data insertId).insertParams = objValues data ∧
      (Model.create table bh ah data insertId).insertSql =
        "INSERT INTO " ++ table ++ " (" ++ String.intercalate ", " (objKeys data) ++
          ") VALUES (" ++
          String.intercalate ", " ((objKeys data).map (fun _ => "?")) ++ ")" ∧
      (Model.create table bh ah data insertId).returned =
        runHooks ah (setField (runHooks bh data) "id" (Value.int insertId))) ∧
    ((Model.create "users" [fun r => setField r "name" (Value.str "hooked")] []
        [("name", Value.str "x")] 7).insertParams = [Value.str "x"] ∧
      (Model.create "users" [fun r => setField r "name" (Value.str "hooked")] []
        [("name", Value.str "x")] 7).returned =
        [("name", Value.str "hooked"), ("id", Value.int 7)]) := by
  exact ⟨fun table bh ah data insertId => ⟨rfl, rfl, rfl⟩, ⟨rfl, rfl⟩⟩

/-- Membership in an ascending insertion. -/
theorem mem_insertSorted (a x : String) (l : List String) :
    a ∈ insertSorted x l ↔ a = x ∨ a ∈ l := by
  induction l with
  | nil => simp [insertSorted]
  | cons y ys ih =>
    cases h : nameLe x y <;> simp [insertSorted, h, ih] <;> tauto

/-- Sorting the ledger names does not change membership. -/
theorem mem_sortNames (a : String) (l : List String) : a ∈ sortNames l ↔ a ∈ l := by
  induction l with
  | nil => simp [sortNames]
  | cons x xs ih =>
    have hstep : sortNames (x :: xs) = insertSorted x (sortNames xs) := rfl
    rw [hstep, mem_insertSorted, ih]
    simp

/-- Sorting the ledger names does not change the `includes` test. -/
theorem contains_sortNames (l : List String) (a : String) :
    (sortNames l).contains a = l.contains a := by
  by_cases h : a ∈ l
  · simp [h, (mem_sortNames a l).mpr h]
  · have hs : ¬ a ∈ sortNames l := fun hh => h ((mem_sortNames a l).mp hh)
    simp [h, hs]

/-- The names of the pending migrations: available migrations whose name is not
in the applied snapshot, in list order. -/
def pendingNames {δ : Type} (ran : List String) (avail : List (Migration δ)) :
    List String :=
  (avail.filter (fun m => !(ran.contains m.name))).map (fun m => m.name)

/-- Sorting the snapshot does not change the pending set. -/
theorem pendingNames_sortNames {δ : Type} (ledger : List String)
    (avail : List (Migration δ)) :
    pendingNames (sortNames ledger) avail = pendingNames ledger avail := by
  unfold pendingNames
  congr 1
  apply List.filter_congr
  intro m _
  rw [contains_sortNames]

/-- When every pending `up` succeeds, the loop of `migrateUp` runs exactly the
pending migrations in list order, appending one ledger row per migration. -/
theorem migrateUpGo_success {δ : Type} (ran : List String) :
    ∀ (avail : List (Migration δ)) (ledger : List String) (db : δ)
      (executed : List String),
      (∀ m ∈ avail, ran.contains m.name = false → ∀ d, (m.up d).isSome) →
      (migrateUpGo ran avail ledger db executed).executed =
          executed ++ pendingNames ran avail ∧
        (migrateUpGo ran avail ledger db executed).ledger =
          ledger ++ pendingNames ran avail ∧
        (migrateUpGo ran avail ledger db executed).err = none := by
  intro avail
  induction avail with
  | nil =>
    intro ledger db executed _
    simp [migrateUpGo, pendingNames]
  | cons m rest ih =>
    intro ledger db executed h
    by_cases hc : m.name ∈ ran
    · have hr := ih ledger db executed (fun m' hm' => h m' (List.mem_cons_of_mem _ hm'))
      simpa [migrateUpGo, pendingNames, hc] using hr
    · have hcf : ran.contains m.name = false := by simpa using hc
      obtain ⟨db2, hdb2⟩ :=
        Option.isSome_iff_exists.mp (h m (List.mem_cons_self _ _) hcf db)
      have hr := ih (ledger ++ [m.name]) db2 (executed ++ [m.name])
        (fun m' hm' => h m' (List.mem_cons_of_mem _ hm'))
      simpa [migrateUpGo, pendingNames, hc, hdb2] using hr

/-- When the `up` of one pending migration fails, the loop of `migrateUp` runs
the pending migrations before it, attempts the failing one, inserts ledger rows
only for the completed ones, and never reaches the rest. -/
theorem migrateUpGo_stops_at_failure {δ : Type} (ran : List String) :
    ∀ (pre : List (Migration δ)) (m : Migration δ) (post : List (Migration δ))
      (ledger : List String) (db : δ) (executed : List String),
      (∀ m' ∈ pre, ran.contains m'.name = false → ∀ d, (m'.up d).isSome) →
      ran.contains m.name = false →
      (∀ d, m.up d = none) →
      (migrateUpGo ran (pre ++ m :: post) ledger db executed).executed =
          executed ++ pendingNames ran pre ++ [m.name] ∧
        (migrateUpGo ran (pre ++ m :: post) ledger db executed).ledger =
          ledger ++ pendingNames ran pre ∧
        (migrateUpGo ran (pre ++ m :: post) ledger db executed).err = some m.name := by
  intro pre
  induction pre with
  | nil =>
    intro m post ledger db executed _ hm hup
    have hmm : ¬ m.name ∈ ran := by simpa using hm
    simp [migrateUpGo, hmm, hup db, pendingNames]
  | cons p rest ih =>
    intro m post ledger db executed hpre hm hup
    by_cases hc : p.name ∈ ran
    · have hr := ih m post ledger db executed
        (fun m' h' => hpre m' (List.mem_cons_of_mem _ h')) hm hup
      simpa [migrateUpGo, pendingNames, hc] using hr
    · have hcf : ran.contains p.name = false := by simpa using hc
      obtain ⟨db2, hdb2⟩ :=
        Option.isSome_iff_exists.mp (hpre p (List.mem_cons_self _ _) hcf db)
      have hr := ih m post (ledger ++ [p.name]) db2 (executed ++ [p.name])
        (fun m' h' => hpre m' (List.mem_cons_of_mem _ h')) hm hup
      simpa [migrateUpGo, pendingNames, hc, hdb2] using hr

/-- C4: `migrateUp` executes the `up` procedure of exactly the available
migrations whose names are not in the applied ledger, in list order (ascending
name order when the available list is name-sorted, as produced by the sorted
directory scan), inserting each migration's ledger row right after its `up`
succeeds, so a fully successful run appends exactly the pending names to the
ledger; and when one pending `up` fails, the migrations after it are never
attempted and the ledger holds exactly the entries completed before the
failure. -/
theorem c4_migrateUp_runs_pending_in_order {δ : Type} :
    (∀ (avail : List (Migration δ)) (ledger : List String) (db : δ),
      (∀ m ∈ avail, ledger.contains m.name = false → ∀ d, (m.up d).isSome) →
      (migrateUp avail ledger db).executed = pendingNames ledger avail ∧
        (migrateUp avail ledger db).ledger = ledger ++ pendingNames ledger avail ∧
        (migrateUp avail ledger db).err = none ∧
        (avail.Pairwise (fun m1 m2 => m1.name ≤ m2.name) →
          (migrateUp avail ledger db).executed.Pairwise (fun a b => a ≤ b))) ∧
    (∀ (pre : List (Migration δ)) (m : Migration δ) (post : List (Migration δ))
        (ledger : List String) (db : δ),
      (∀ m' ∈ pre, ledger.contains m'.name = false → ∀ d, (m'.up d).isSome) →
      ledger.contains m.name = false →
      (∀ d, m.up d = none) →
      (migrateUp (pre ++ m :: post) ledger db).executed =
          pendingNames ledger pre ++ [m.name] ∧
        (migrateUp (pre ++ m :: post) ledger db).ledger =
          ledger ++ pendingNames ledger pre ∧
        (migrateUp (pre ++ m :: post) ledger db).err = some m.name) := by
  constructor
  · intro avail ledger db h
    have h2 : ∀ m ∈ avail, (sortNames ledger).contains m.name = false →
        ∀ d, (m.up d).isSome := by
      intro m hm hc
      exact h m hm (by rwa [contains_sortNames] at hc)
    have hr := migrateUpGo_success (sortNames ledger) avail ledger db [] h2
    rw [pendingNames_sortNames] at hr
    refine ⟨by simpa using hr.1, by simpa using hr.2.1, hr.2.2, ?_⟩
    intro hsorted
    have hx : (migrateUp avail ledger db).executed = pendingNames ledger avail := by
      simpa using hr.1
    rw [hx]
    unfold pendingNames
    exact (List.Pairwise.filter _ hsorted).map _ (fun _ _ hab => hab)
  · intro pre m post ledger db hpre hm hup
    have hpre2 : ∀ m' ∈ pre, (sortNames ledger).contains m'.name = false →
        ∀ d, (m'.up d).isSome := by
      intro m' hm' hc
      exact hpre m' hm' (by rwa [contains_sortNames] at hc)
    have hm2 : (sortNames ledger).contains m.name = false := by
      rwa [contains_sortNames]
    have hr := migrateUpGo_stops_at_failure (sortNames ledger) pre m post ledger db []
      hpre2 hm2 hup
    rw [pendingNames_sortNames] at hr
    exact ⟨by simpa using hr.1, by simpa using hr.2.1, hr.2.2⟩

/-- Three always-succeeding migrations named `A`, `B`, `C`, in ascending name
order, acting on a counter database state. -/
def upMigs : List (Migration Nat) :=
  [{ name := "A", up := fun d => some (d + 1), down := fun d => some d },
    { name := "B", up := fun d => some (d + 1), down := fun d => some d },
    { name := "C", up := fun d => some (d + 1), down := fun d => some d }]

/-- Witness for C4: on an empty ledger with available migrations `A`, `B`, `C`,
`migrateUp` applies all three in order and leaves the ledger containing exactly
them. -/
theorem c4_witness :
    (migrateUp upMigs ([] : List String) 0).executed = ["A", "B", "C"] ∧
    (migrateUp upMigs ([] : List String) 0).ledger = ["A", "B", "C"] ∧
    (migrateUp upMigs ([] : List String) 0).err = none := by
  have hyp : ∀ m ∈ upMigs, ([] : List String).contains m.name = false →
      ∀ d, (m.up d).isSome := by
    intro m hm _ d
    rcases (by simpa [upMigs] using hm : m = _ ∨ m = _ ∨ m = _) with rfl | rfl | rfl <;> rfl
  obtain ⟨h1, h2, h3, _⟩ :=
    (c4_migrateUp_runs_pending_in_order (δ := Nat)).1 upMigs [] 0 hyp
  refine ⟨?_, ?_, ?_⟩
  · rw [h1]; rfl
  · rw [h2]; rfl
  · exact h3

/-- Ascending insertion grows the length by one. -/
theorem length_insertSorted (x : String) (l : List String) :
    (insertSorted x l).length = l.length + 1 := by
  induction l with
  | nil => simp [insertSorted]
  | cons y ys ih => cases h : nameLe x y <;> simp [insertSorted, h, ih]

/-- Sorting the ledger names preserves the length. -/
theorem length_sortNames (l : List String) : (sortNames l).length = l.length := by
  induction l with
  | nil => rfl
  | cons x xs ih =>
    have hstep : sortNames (x :: xs) = insertSorted x (sortNames xs) := rfl
    rw [hstep, length_insertSorted, ih]
    rfl

/-- Taking from the reversed list is the reverse of the final segment:
`slice().reverse().slice(0, steps)` selects the last `steps` entries, most
recent first. -/
theorem reverse_take_eq_drop_reverse {α : Type} (l : List α) (n : Nat) :
    l.reverse.take n = (l.drop (l.length - n)).reverse := by
  have h := List.rtake_eq_reverse_take_reverse (l := l) (n := n)
  rw [List.rtake] at h
  rw [h, List.reverse_reverse]

/-- Deleting the rows named `n` and then the rows named in `rest` deletes
exactly the rows named in `n :: rest`. -/
theorem filter_ne_filter_not_contains (ledger rest : List String) (n : String) :
    (ledger.filter (fun x => x != n)).filter (fun x => !(rest.contains x)) =
      ledger.filter (fun x => !((n :: rest).contains x)) := by
  rw [List.filter_filter]
  apply List.filter_congr
  intro x _
  by_cases h : x = n <;> simp [h, bne]

/-- When every selected name has a definition and every `down` succeeds, the
rollback loop processes the selected names in list order, deleting exactly
their ledger rows and skipping nothing. -/
theorem migrateDownGo_success {δ : Type} (avail : List (Migration δ)) :
    ∀ (names ledger : List String) (db : δ) (rolledBack skipped : List String),
      (∀ n ∈ names, (lookupMigration avail n).isSome) →
      (∀ m ∈ avail, ∀ d, (m.down d).isSome) →
      (migrateDownGo avail names ledger db rolledBack skipped).rolledBack =
          rolledBack ++ names ∧
        (migrateDownGo avail names ledger db rolledBack skipped).ledger =
          ledger.filter (fun x => !(names.contains x)) ∧
        (migrateDownGo avail names ledger db rolledBack skipped).skipped = skipped ∧
        (migrateDownGo avail names ledger db rolledBack skipped).err = none := by
  intro names
  induction names with
  | nil =>
    intro ledger db rb sk _ _
    simp [migrateDownGo]
  | cons n rest ih =>
    intro ledger db rb sk h1 h2
    obtain ⟨m, hm⟩ := Option.isSome_iff_exists.mp (h1 n (List.mem_cons_self _ _))
    have hmem : m ∈ avail := by
      unfold lookupMigration at hm
      exact List.mem_reverse.mp (List.mem_of_find?_eq_some hm)
    obtain ⟨db2, hdb2⟩ := Option.isSome_iff_exists.mp (h2 m hmem db)
    have key : migrateDownGo avail (n :: rest) ledger db rb sk =
        migrateDownGo avail rest (ledger.filter (fun x => x != n)) db2 (rb ++ [n]) sk := by
      simp [migrateDownGo, hm, hdb2]
    have hr := ih (ledger.filter (fun x => x != n)) db2 (rb ++ [n]) sk
      (fun x hx => h1 x (List.mem_cons_of_mem _ hx)) h2
    rw [key]
    refine ⟨?_, ?_, hr.2.2.1, hr.2.2.2⟩
    · rw [hr.1]
      simp
    · rw [hr.2.1, filter_ne_filter_not_contains]

/-- C5: `migrateDown(steps)` selects exactly the last `steps` entries of the
applied set sorted ascending by name and processes them most-recent first:
when every selected entry has a definition and every `down` succeeds, the
rolled-back names are the reversed final segment of the sorted applied names,
and exactly their ledger rows are deleted. -/
theorem c5_migrateDown_rolls_back_last_steps {δ : Type} :
    ∀ (ledger : List String) (steps : Nat) (avail : List (Migration δ)) (db : δ),
      0 < steps →
      (∀ n ∈ (sortNames ledger).reverse.take steps, (lookupMigration avail n).isSome) →
      (∀ m ∈ avail, ∀ d, (m.down d).isSome) →
      (migrateDown steps avail ledger db).rolledBack =
          ((sortNames ledger).drop ((sortNames ledger).length - steps)).reverse ∧
        (migrateDown steps avail ledger db).ledger =
          ledger.filter
            (fun x => !(((sortNames ledger).reverse.take steps).contains x)) ∧
        (migrateDown steps avail ledger db).err = none := by
  intro ledger steps avail db _ hfound hdown
  by_cases hledger : ledger = []
  · subst hledger
    simp [migrateDown, sortNames, migrateDownGo]
  · have hne : (sortNames ledger).isEmpty = false := by
      rw [List.isEmpty_eq_false_iff_exists_mem]
      obtain ⟨a, ha⟩ := List.exists_mem_of_ne_nil ledger hledger
      exact ⟨a, (mem_sortNames a ledger).mpr ha⟩
    have key : migrateDown steps avail ledger db =
        migrateDownGo avail ((sortNames ledger).reverse.take steps) ledger db [] [] := by
      simp [migrateDown, hne]
    have hr := migrateDownGo_success avail ((sortNames ledger).reverse.take steps)
      ledger db [] [] hfound hdown
    rw [key]
    refine ⟨?_, hr.2.1, hr.2.2.2⟩
    rw [hr.1, ← reverse_take_eq_drop_reverse]
    simp

/-- Witness for C5: rolling back two steps from the applied set `A`, `B`, `C`
with all three definitions available rolls back `C` then `B`, leaving exactly
`A` in the ledger. -/
theorem c5_witness :
    (migrateDown 2 upMigs ["A", "B", "C"] 5).rolledBack = ["C", "B"] ∧
    (migrateDown 2 upMigs ["A", "B", "C"] 5).ledger = ["A"] ∧
    (migrateDown 2 upMigs ["A", "B", "C"] 5).err = none := by
  have hdown : ∀ m ∈ upMigs, ∀ d, (m.down d).isSome := by
    intro m hm d
    rcases (by simpa [upMigs] using hm : m = _ ∨ m = _ ∨ m = _) with rfl | rfl | rfl <;> rfl
  have hfound : ∀ n ∈ (sortNames ["A", "B", "C"]).reverse.take 2,
      (lookupMigration upMigs n).isSome := by decide
  have h := c5_migrateDown_rolls_back_last_steps ["A", "B", "C"] 2 upMigs 5
    (by decide) hfound hdown
  refine ⟨?_, ?_, h.2.2⟩
  · rw [h.1]
    decide
  · rw [h.2.1]
    decide

/-- C6: a selected rollback entry whose name has no matching available
definition is skipped with a warning: its loop step runs no `down` procedure,
issues no ledger delete, and continues with the remaining entries exactly as
if the entry had only been appended to the warning list. -/
theorem c6_missing_definition_skipped {δ : Type} (avail : List (Migration δ))
    (n : String) (rest ledger : List String) (db : δ)
    (rolledBack skipped : List String) :
    lookupMigration avail n = none →
    migrateDownGo avail (n :: rest) ledger db rolledBack skipped =
      migrateDownGo avail rest ledger db rolledBack (skipped ++ [n]) := by
  intro h
  simp [migrateDownGo, h]

/-- Witness for C6: with no available definitions, rolling back the ledger
entry `X` leaves its row in place, rolls back nothing, and records the skip. -/
theorem c6_witness :
    (migrateDownGo ([] : List (Migration Nat)) ["X"] ["A", "X"] 0 [] []).ledger =
        ["A", "X"] ∧
      (migrateDownGo ([] : List (Migration Nat)) ["X"] ["A", "X"] 0 [] []).rolledBack =
        [] ∧
      (migrateDownGo ([] : List (Migration Nat)) ["X"] ["A", "X"] 0 [] []).skipped =
        ["X"] := by
  rw [c6_missing_definition_skipped ([] : List (Migration Nat)) "X" [] ["A", "X"] 0 [] []
    rfl]
  exact ⟨rfl, rfl, rfl⟩
